import Mathlib

/-!
Shallow embedding of `pycomm3/packets/logix.py`: the CIP tag-service codec,
fragmentation engine, read-modify-write bitmask encoder and multi-service
batch codec.  Byte strings are modelled as `List Nat` (each entry one byte),
Python unbounded non-negative ints as `Nat`, and Python list/bytes slicing as
`List.take`/`List.drop`.
-/

namespace Pycomm3

/-- Byte strings (`bytes` in the source) as lists of byte values. -/
abbrev Bytes := List Nat

/-- CIP general status `SUCCESS` (from `pycomm3.const`). -/
def SUCCESS : Nat := 0

/-- CIP general status `INSUFFICIENT_PACKETS` = 0x06 (from `pycomm3.const`). -/
def INSUFFICIENT_PACKETS : Nat := 6

/-- Encoder `Pack.uint`: 2-byte little-endian unsigned encoding. -/
def packUint (n : Nat) : Bytes := [n % 256, n / 256 % 256]

/-- Encoders `Pack.udint` / `Pack.dint` on a non-negative offset: 4-byte little-endian. -/
def packDint (n : Nat) : Bytes := [n % 256, n / 256 % 256, n / 65536 % 256, n / 16777216 % 256]

/-- Encoder `Pack.ulint`: 8-byte little-endian unsigned encoding. -/
def packUlint (n : Nat) : Bytes := (List.range 8).map (fun i => n / 256 ^ i % 256)

/-- Decoder `Unpack.uint`: read a 2-byte little-endian unsigned int from the front. -/
def unpackUint (b : Bytes) : Nat := b.headD 0 + 256 * b.tail.headD 0

theorem packUint_length (n : Nat) : (packUint n).length = 2 := rfl

theorem packUlint_length (n : Nat) : (packUlint n).length = 8 := rfl

/-- Python slice `l[i:i+ss] for i in range(0, len(l), ss)`, fuelled so the
recursion is structural; `chunks` instantiates the fuel with `l.length`,
which suffices whenever `1 ≤ ss`. -/
def chunksAux {α : Type} (ss : Nat) : Nat → List α → List (List α)
  | _, [] => []
  | 0, _ :: _ => []
  | fuel + 1, a :: l => (a :: l).take ss :: chunksAux ss fuel ((a :: l).drop ss)

/-- The list of consecutive slices `l[0:ss], l[ss:2*ss], ...` produced by
`range(0, len(l), ss)` slicing in the source. -/
def chunks {α : Type} (ss : Nat) (l : List α) : List (List α) := chunksAux ss l.length l

/- ### Read-modify-write bitmask encoder (`ReadModifyWriteRequestPacket`) -/

/-- Accumulator state of `ReadModifyWriteRequestPacket`: the tag's data type
name, the OR/AND masks (Python unbounded non-negative ints), and the `bits` /
`_request_ids` lists appended to by `set_bit`. -/
structure RMWState where
  dataType : String
  orMask : Nat
  andMask : Nat
  bits : List Nat
  requestIds : List Nat
deriving DecidableEq, Repr

/-- Constructor `ReadModifyWriteRequestPacket.__init__`: `_and_mask = 0xFFFF_FFFF_FFFF_FFFF`,
`_or_mask = 0`, empty `bits` and `_request_ids`. -/
def initRMW (dt : String) : RMWState :=
  { dataType := dt, orMask := 0, andMask := 0xFFFFFFFFFFFFFFFF, bits := [], requestIds := [] }

/-- Python `x &= ~(1 << b)` on a non-negative unbounded int clears bit `b`:
subtract `2 ^ b` exactly when that bit is set. -/
def clearBit (x b : Nat) : Nat := if Nat.testBit x b then x - 2 ^ b else x

/-- The effective bit index used by `set_bit`: reduced mod 32 only when the
data type name is exactly `DWORD`. -/
def effBit (dt : String) (bit : Nat) : Nat := if dt = "DWORD" then bit % 32 else bit

/-- Method `ReadModifyWriteRequestPacket.set_bit(bit, value, request_id)`. -/
def set_bit (s : RMWState) (bit : Nat) (value : Bool) (requestId : Nat) : RMWState :=
  let b := effBit s.dataType bit
  if value then
    { s with orMask := s.orMask ||| 2 ^ b, andMask := s.andMask ||| 2 ^ b,
             bits := s.bits ++ [b], requestIds := s.requestIds ++ [requestId] }
  else
    { s with orMask := clearBit s.orMask b, andMask := clearBit s.andMask b,
             bits := s.bits ++ [b], requestIds := s.requestIds ++ [requestId] }

/-- Body assembled by `ReadModifyWriteRequestPacket.build_request`: service,
request path, `Pack.uint(_mask_size)`, `Pack.ulint(_or_mask)[:_mask_size]`,
and — exactly as in the source — `Pack.ulint(_and_mask)[:self._and_mask]`,
the AND slice bounded by the mask's *value*. -/
def rmwBody (service path : Bytes) (s : RMWState) (maskSize : Nat) : Bytes :=
  service ++ path ++ packUint maskSize
    ++ (packUlint s.orMask).take maskSize
    ++ (packUlint s.andMask).take s.andMask

theorem testBit_or_pow_self (x b : Nat) : Nat.testBit (x ||| 2 ^ b) b = true := by
  simp [Nat.testBit_or]

theorem testBit_clearBit_self (x b : Nat) : Nat.testBit (clearBit x b) b = false := by
  unfold clearBit
  by_cases h : Nat.testBit x b
  · simp only [h, if_true]
    have hx : 2 ^ b ≤ x := Nat.testBit_implies_ge h
    have hq : x / 2 ^ b % 2 = 1 := by
      have htdm : Nat.testBit x b = decide (x / 2 ^ b % 2 = 1) := Nat.testBit_to_div_mod
      rw [h] at htdm
      simpa using htdm.symm
    have hp : 0 < 2 ^ b := Nat.pos_pow_of_pos b (by norm_num)
    have hsub : (x - 2 ^ b) / 2 ^ b = x / 2 ^ b - 1 := by
      have h1 : x - 2 ^ b + 2 ^ b = x := Nat.sub_add_cancel hx
      have h2 : (x - 2 ^ b + 2 ^ b) / 2 ^ b = (x - 2 ^ b) / 2 ^ b + 1 := by
        rw [Nat.add_div_right _ hp]
      rw [h1] at h2
      rw [h2, Nat.add_sub_cancel]
    rw [Nat.testBit_to_div_mod, hsub]
    have hq1 : 1 ≤ x / 2 ^ b := by
      by_contra hc
      push_neg at hc
      interval_cases h' : x / 2 ^ b
      simp [h'] at hq
    have : (x / 2 ^ b - 1) % 2 = 0 := by omega
    simp [this]
  · simp [h]

/- ### Chunking infrastructure -/

theorem chunksAux_congr {α : Type} (ss : Nat) (hss : 1 ≤ ss) :
    ∀ (f1 f2 : Nat) (l : List α), l.length ≤ f1 → l.length ≤ f2 →
      chunksAux ss f1 l = chunksAux ss f2 l := by
  intro f1
  induction f1 with
  | zero =>
    intro f2 l h1 _
    have : l = [] := List.eq_nil_of_length_eq_zero (Nat.le_zero.mp h1)
    subst this
    cases f2 <;> rfl
  | succ f1 ih =>
    intro f2 l h1 h2
    cases l with
    | nil => cases f2 <;> rfl
    | cons a t =>
      cases f2 with
      | zero => simp at h2
      | succ f2 =>
        simp only [chunksAux]
        congr 1
        apply ih
        · simp only [List.length_drop, List.length_cons]
          simp only [List.length_cons] at h1
          omega
        · simp only [List.length_drop, List.length_cons]
          simp only [List.length_cons] at h2
          omega

theorem chunks_cons {α : Type} (ss : Nat) (hss : 1 ≤ ss) (l : List α) (hl : l ≠ []) :
    chunks ss l = l.take ss :: chunks ss (l.drop ss) := by
  cases l with
  | nil => exact absurd rfl hl
  | cons a t =>
    show chunksAux ss (t.length + 1) (a :: t) = _
    show (a :: t).take ss :: chunksAux ss t.length ((a :: t).drop ss) = _
    congr 1
    exact chunksAux_congr ss hss t.length ((a :: t).drop ss).length ((a :: t).drop ss)
      (by simp only [List.length_drop, List.length_cons]; omega) (le_refl _)

theorem chunks_nil {α : Type} (ss : Nat) : chunks ss ([] : List α) = [] := rfl

theorem chunks_flatten {α : Type} (ss : Nat) (hss : 1 ≤ ss) (l : List α) :
    (chunks ss l).flatten = l := by
  have main : ∀ (n : Nat) (l : List α), l.length = n → (chunks ss l).flatten = l := by
    intro n
    induction n using Nat.strong_induction_on with
    | _ n ih =>
      intro l hl
      cases l with
      | nil => simp [chunks_nil]
      | cons a t =>
        rw [chunks_cons ss hss _ (by simp), List.flatten_cons]
        have hlt : ((a :: t).drop ss).length < n := by
          rw [List.length_drop]
          subst hl
          simp only [List.length_cons]
          omega
        rw [ih _ hlt _ rfl]
        exact List.take_append_drop ss (a :: t)
  exact main l.length l rfl

theorem chunks_mem_length_le {α : Type} (ss : Nat) (hss : 1 ≤ ss) (l : List α) :
    ∀ ch ∈ chunks ss l, ch.length ≤ ss := by
  have main : ∀ (n : Nat) (l : List α), l.length = n → ∀ ch ∈ chunks ss l, ch.length ≤ ss := by
    intro n
    induction n using Nat.strong_induction_on with
    | _ n ih =>
      intro l hl
      cases l with
      | nil => simp [chunks_nil]
      | cons a t =>
        rw [chunks_cons ss hss _ (by simp)]
        intro ch hch
        rcases List.mem_cons.mp hch with h | h
        · subst h
          exact List.length_take_le ss (a :: t)
        · have hlt : ((a :: t).drop ss).length < n := by
            rw [List.length_drop]
            subst hl
            simp only [List.length_cons]
            omega
          exact ih _ hlt _ rfl ch h
  exact main l.length l rfl

theorem chunks_length_mul {α : Type} (ss : Nat) (hss : 1 ≤ ss) :
    ∀ (k : Nat) (l : List α), l.length = k * ss → (chunks ss l).length = k := by
  intro k
  induction k with
  | zero =>
    intro l hl
    have : l = [] := List.eq_nil_of_length_eq_zero (by simpa using hl)
    subst this
    rfl
  | succ k ih =>
    intro l hl
    have hne : l ≠ [] := by
      intro h
      subst h
      simp at hl
      omega
    rw [chunks_cons ss hss l hne, List.length_cons]
    rw [ih (l.drop ss) (by rw [List.length_drop, hl]; ring_nf; omega)]

/- ### Offset accumulation (shared by the fragment loops and batch table) -/

/-- The running-offset pairing used by the fragment loops: starting at `o`,
each item is paired with the current offset and the offset advances by that
item's length under `len`. -/
def offsetRounds {α : Type} (len : α → Nat) (o : Nat) : List α → List (Nat × α)
  | [] => []
  | a :: rest => (o, a) :: offsetRounds len (o + len a) rest

theorem offsetRounds_length {α : Type} (len : α → Nat) (o : Nat) (l : List α) :
    (offsetRounds len o l).length = l.length := by
  induction l generalizing o with
  | nil => rfl
  | cons a t ih => simp [offsetRounds, ih]

theorem offsetRounds_map_snd {α : Type} (len : α → Nat) (o : Nat) (l : List α) :
    (offsetRounds len o l).map Prod.snd = l := by
  induction l generalizing o with
  | nil => rfl
  | cons a t ih => simp [offsetRounds, ih]

theorem take_map_sum_succ {α : Type} (f : α → Nat) (l : List α) (i : Nat) (d : α)
    (h : i < l.length) :
    ((l.take (i + 1)).map f).sum = ((l.take i).map f).sum + f (l.getD i d) := by
  induction l generalizing i with
  | nil => simp at h
  | cons a t ih =>
    cases i with
    | zero => simp
    | succ i =>
      simp only [List.take_succ_cons, List.map_cons, List.sum_cons, List.getD_cons_succ]
      rw [ih i (by simpa using h)]
      ring

theorem offsetRounds_getD_fst {α : Type} (len : α → Nat) (o : Nat) (l : List α) (i : Nat)
    (d : Nat × α) (h : i < l.length) :
    ((offsetRounds len o l).getD i d).fst = o + ((l.take i).map len).sum := by
  induction l generalizing o i with
  | nil => simp at h
  | cons a t ih =>
    cases i with
    | zero => simp [offsetRounds]
    | succ i =>
      simp only [offsetRounds, List.getD_cons_succ, List.take_succ_cons, List.map_cons,
        List.sum_cons]
      rw [ih _ i (by simpa using h)]
      ring

theorem offsetRounds_getD_snd {α : Type} (len : α → Nat) (o : Nat) (l : List α) (i : Nat)
    (d : Nat × α) (h : i < l.length) :
    ((offsetRounds len o l).getD i d).snd = l.getD i d.snd := by
  induction l generalizing o i with
  | nil => simp at h
  | cons a t ih =>
    cases i with
    | zero => simp [offsetRounds]
    | succ i =>
      simp only [offsetRounds, List.getD_cons_succ]
      exact ih _ i (by simpa using h)

theorem offsetRounds_getD_fst_succ {α : Type} (len : α → Nat) (o : Nat) (l : List α) (i : Nat)
    (d : Nat × α) (h : i + 1 < l.length) :
    ((offsetRounds len o l).getD (i + 1) d).fst
      = ((offsetRounds len o l).getD i d).fst + len (((offsetRounds len o l).getD i d).snd) := by
  rw [offsetRounds_getD_fst len o l (i + 1) d h,
      offsetRounds_getD_fst len o l i d (Nat.lt_of_succ_lt h),
      offsetRounds_getD_snd len o l i d (Nat.lt_of_succ_lt h),
      take_map_sum_succ len l i d.snd (Nat.lt_of_succ_lt h)]
  ring

/- ### Tag requests (`TagServiceRequestPacket` and read variants) -/

/-- The `tag_info` dict: tag type (`'atomic'` or `'struct'`), the
`data_type_name`, and for structs the template's `structure_handle`. -/
structure TagInfo where
  tagType : String
  dataTypeName : String
  structureHandle : Nat
deriving DecidableEq, Repr

/-- Fields of a read request set by `TagServiceRequestPacket.__init__`
(`ReadTagRequestPacket` adds none); both the plain and fragmented read
requests carry exactly these, which are the ones `from_request` copies. -/
structure ReadTagReqBase where
  tag : String
  elements : Nat
  tagInfo : TagInfo
  requestId : Nat
  useInstanceId : Bool
  requestPath : Option Bytes
deriving DecidableEq, Repr

/-- A `ReadTagFragmentedRequestPacket`: the shared read-request fields plus
the fragment `offset`. -/
structure ReadTagFragReq extends ReadTagReqBase where
  offset : Nat
deriving DecidableEq, Repr

/-- Constructor `ReadTagFragmentedRequestPacket.__init__`: the base constructor chain
leaves `request_path = None` and stores the given offset. -/
def readTagFragInit (tag : String) (elements : Nat) (ti : TagInfo) (requestId : Nat)
    (useInstanceId : Bool) (offset : Nat) : ReadTagFragReq :=
  { tag := tag, elements := elements, tagInfo := ti, requestId := requestId,
    useInstanceId := useInstanceId, requestPath := none, offset := offset }

/-- Classmethod `ReadTagFragmentedRequestPacket.from_request(request, offset)`: construct
via `__init__` from the source request's fields, then overwrite
`request_path` with the source request's already-compiled path. -/
def from_request (r : ReadTagReqBase) (k : Nat) : ReadTagFragReq :=
  let nr := readTagFragInit r.tag r.elements r.tagInfo r.requestId r.useInstanceId k
  { nr with requestPath := r.requestPath }

/- ### Multi-service batch codec (`MultiServiceRequestPacket` / response) -/

/-- The per-operation data `MultiServiceRequestPacket.build_message` reads
from each bundled request: its class `tag_service` code, its compiled
`request_path`, and its element count. -/
structure BatchReq where
  tag_service : Bytes
  request_path : Bytes
  elements : Nat
deriving DecidableEq, Repr

/-- One operation's service-specific body segment inside the batch:
`b''.join((request.tag_service, request.request_path, Pack.uint(request.elements)))`. -/
def reqBody (r : BatchReq) : Bytes := r.tag_service ++ r.request_path ++ packUint r.elements

/-- The offset-accumulation loop of `build_message`: starting from `o`, each
segment length contributes one offset and advances the accumulator. -/
def offsetsGo (o : Nat) : List Nat → List Nat
  | [] => []
  | l :: rest => o :: offsetsGo (o + l) rest

/-- The batch offset table for segments of the given lengths, starting at
`offset = 2 + (num_requests * 2)` as in `build_message`. -/
def offsetsFor (ls : List Nat) : List Nat := offsetsGo (2 + 2 * ls.length) ls

/-- The variable part `build_message` appends after the header:
`Pack.uint(num_requests)`, the packed offsets, then the concatenated
per-operation message segments. -/
def buildMessageTail (reqs : List BatchReq) : Bytes :=
  packUint reqs.length
    ++ ((offsetsFor ((reqs.map reqBody).map List.length)).map packUint).flatten
    ++ (reqs.map reqBody).flatten

theorem offsetsGo_length (o : Nat) (ls : List Nat) : (offsetsGo o ls).length = ls.length := by
  induction ls generalizing o with
  | nil => rfl
  | cons l rest ih => simp [offsetsGo, ih]

theorem offsetsFor_length (ls : List Nat) : (offsetsFor ls).length = ls.length :=
  offsetsGo_length _ ls

theorem take_sum_succ (ls : List Nat) (i : Nat) (h : i < ls.length) :
    (ls.take (i + 1)).sum = (ls.take i).sum + ls.getD i 0 := by
  have hmap := take_map_sum_succ (fun x => x) ls i 0 h
  simpa using hmap

theorem offsetsGo_getD (o : Nat) (ls : List Nat) (i : Nat) (h : i < ls.length) :
    (offsetsGo o ls).getD i 0 = o + (ls.take i).sum := by
  induction ls generalizing o i with
  | nil => simp at h
  | cons l rest ih =>
    cases i with
    | zero => simp [offsetsGo]
    | succ i =>
      simp only [offsetsGo, List.getD_cons_succ, List.take_succ_cons, List.sum_cons]
      rw [ih _ i (by simpa using h)]
      ring

/-- Claim C4: for a batch of `n` operations with body segment lengths
`l_0..l_(n-1)`, the emitted tail is the count field, then the offset table,
then the concatenated segments; count field plus table occupy `2 + 2*n`
bytes; `offset[0] = 2 + 2*n` and `offset[i+1] = offset[i] + l_i`; for body
lengths `[10, 6, 14]` the offsets are `[8, 18, 24]`. -/
theorem C4_batch_offset_table (reqs : List BatchReq) (i : Nat)
    (h0 : 0 < reqs.length) (hi : i + 1 < reqs.length) :
    buildMessageTail reqs
      = packUint reqs.length
          ++ ((offsetsFor ((reqs.map reqBody).map List.length)).map packUint).flatten
          ++ (reqs.map reqBody).flatten ∧
    (packUint reqs.length
        ++ ((offsetsFor ((reqs.map reqBody).map List.length)).map packUint).flatten).length
      = 2 + 2 * reqs.length ∧
    (offsetsFor ((reqs.map reqBody).map List.length)).getD 0 0 = 2 + 2 * reqs.length ∧
    (offsetsFor ((reqs.map reqBody).map List.length)).getD (i + 1) 0
      = (offsetsFor ((reqs.map reqBody).map List.length)).getD i 0
        + ((reqs.map reqBody).map List.length).getD i 0 ∧
    offsetsFor [10, 6, 14] = [8, 18, 24] := by
  have hlen : ((reqs.map reqBody).map List.length).length = reqs.length := by simp
  refine ⟨rfl, ?_, ?_, ?_, by decide⟩
  · simp only [List.length_append, packUint_length, List.length_flatten]
    rw [List.map_map]
    have hconst : (offsetsFor ((reqs.map reqBody).map List.length)).map
        (List.length ∘ packUint)
        = (offsetsFor ((reqs.map reqBody).map List.length)).map (fun _ => 2) :=
      List.map_congr_left (fun a _ => by simp [packUint_length])
    rw [hconst, List.map_const', List.sum_replicate, offsetsFor_length, hlen, smul_eq_mul]
    ring
  · rw [offsetsFor, offsetsGo_getD _ _ 0 (by rw [hlen]; exact h0)]
    simp [hlen]
  · rw [offsetsFor, offsetsGo_getD _ _ (i + 1) (by rw [hlen]; exact hi),
        offsetsGo_getD _ _ i (by rw [hlen]; omega),
        take_sum_succ ((reqs.map reqBody).map List.length) i (by rw [hlen]; omega)]
    ring

/-- Witness for C4 at three concrete operations with body lengths 10, 6 and
14 (1-byte service + paths of 7, 3, 11 bytes + 2-byte element count). -/
theorem C4_witness :
    offsetsFor [10, 6, 14] = [8, 18, 24] :=
  (C4_batch_offset_table
      [{ tag_service := [0x4C], request_path := [1, 2, 3, 4, 5, 6, 7], elements := 1 },
       { tag_service := [0x4C], request_path := [1, 2, 3], elements := 1 },
       { tag_service := [0x4C], request_path := [1, 2, 3, 4, 5, 6, 7, 8, 9, 10, 11], elements := 1 }]
      0 (by decide) (by decide)).2.2.2.2

/-- Python slice `data[i:j]` (`j = none` meaning an absent end index, as
produced by `zip_longest` padding). -/
def pySlice (data : Bytes) (i : Nat) (j : Option Nat) : Bytes :=
  match j with
  | none => data.drop i
  | some j => (data.take j).drop i

/-- The `tee`/`next`/`zip_longest` pairing in `MultiServiceResponsePacket._parse_reply`:
each offset paired with its successor, the last with `None`. -/
def slicePairs : List Nat → List (Nat × Option Nat)
  | [] => []
  | [a] => [(a, none)]
  | a :: b :: rest => (a, some b) :: slicePairs (b :: rest)

/-- The offsets `_parse_reply` reads: `num_replies = Unpack.uint(self.data)`,
`offset_data = self.data[2:2 + 2*num_replies]`, then one `Unpack.uint` per
2-byte slice of `offset_data`. -/
def parsedOffsets (data : Bytes) : List Nat :=
  (chunks 2 ((data.drop 2).take (2 * unpackUint data))).map unpackUint

/-- Slices `reply_data` in `_parse_reply`: one slice of the shared buffer per
offset, each running from its offset to the next (the last to the end). -/
def parseMultiReply (data : Bytes) : List Bytes :=
  (slicePairs (parsedOffsets data)).map (fun p => pySlice data p.1 p.2)

/-- The `zip(reply_data, self.request.requests)` pairing that hands slice `i`
to the `i`-th bundled request's response class, in request order. -/
def multiResponses {α : Type} (reqs : List α) (data : Bytes) : List (Bytes × α) :=
  (parseMultiReply data).zip reqs

theorem slicePairs_length (l : List Nat) : (slicePairs l).length = l.length := by
  induction l with
  | nil => rfl
  | cons a t ih =>
    cases t with
    | nil => rfl
    | cons b r => simp only [slicePairs, List.length_cons] at ih ⊢; omega

theorem slicePairs_getD_mid (l : List Nat) (i : Nat) (h : i + 1 < l.length) :
    (slicePairs l).getD i (0, none) = (l.getD i 0, some (l.getD (i + 1) 0)) := by
  induction l generalizing i with
  | nil => simp at h
  | cons a t ih =>
    cases t with
    | nil => simp at h
    | cons b r =>
      cases i with
      | zero => simp [slicePairs]
      | succ i =>
        simp only [slicePairs, List.getD_cons_succ]
        exact ih i (by simpa using h)

theorem slicePairs_getD_last (l : List Nat) (hne : l ≠ []) :
    (slicePairs l).getD (l.length - 1) (0, none) = (l.getLast hne, none) := by
  induction l with
  | nil => exact absurd rfl hne
  | cons a t ih =>
    cases t with
    | nil => simp [slicePairs]
    | cons b r =>
      have hbr : (b :: r : List Nat) ≠ [] := by simp
      have hih := ih hbr
      rw [show (b :: r : List Nat).length - 1 = r.length from by simp] at hih
      rw [show (a :: b :: r : List Nat).length - 1 = r.length + 1 from by simp]
      show ((a, some b) :: slicePairs (b :: r)).getD (r.length + 1) (0, none) = _
      rw [List.getD_cons_succ, hih]
      rw [List.getLast_cons hbr]

theorem drop_take_append_drop (i j : Nat) (l : Bytes) (h : i ≤ j) :
    (l.take j).drop i ++ l.drop j = l.drop i := by
  rcases Nat.le_total j l.length with hj | hj
  · rw [← List.drop_append_of_le_length]
    · rw [List.take_append_drop]
    · simp [List.length_take]
      omega
  · rw [List.take_of_length_le hj, List.drop_eq_nil_of_le hj, List.append_nil]

theorem slicePairs_flatten (data : Bytes) (o : Nat) (rest : List Nat)
    (hchain : List.Chain' (· ≤ ·) (o :: rest)) :
    ((slicePairs (o :: rest)).map (fun p => pySlice data p.1 p.2)).flatten = data.drop o := by
  induction rest generalizing o with
  | nil => simp [slicePairs, pySlice]
  | cons b r ih =>
    have hob : o ≤ b := (List.chain'_cons.mp hchain).1
    have hrest : List.Chain' (· ≤ ·) (b :: r) := (List.chain'_cons.mp hchain).2
    simp only [slicePairs, List.map_cons, List.flatten_cons]
    rw [ih b hrest, pySlice]
    exact drop_take_append_drop o b data hob

theorem getD_map_lt {α β : Type} (f : α → β) (l : List α) (i : Nat) (d : β) (e : α)
    (h : i < l.length) :
    (l.map f).getD i d = f (l.getD i e) := by
  induction l generalizing i with
  | nil => simp at h
  | cons a t ih =>
    cases i with
    | zero => simp
    | succ i => simp only [List.map_cons, List.getD_cons_succ]; exact ih i (by simpa using h)

/-- A concrete batch reply: count field 3, offsets `[8, 18, 24]`, total
length 38, so the three slices have lengths 10, 6 and 14. -/
def sampleMultiData : Bytes :=
  [3, 0, 8, 0, 18, 0, 24, 0,
   100, 101, 102, 103, 104, 105, 106, 107, 108, 109,
   110, 111, 112, 113, 114, 115,
   116, 117, 118, 119, 120, 121, 122, 123, 124, 125, 126, 127, 128, 129]

/-- Claim C5: when the reply's count field is `n`, the buffer holds the full
2-byte-per-entry offset table, and the parsed offsets are strictly
increasing, `_parse_reply` produces exactly `n` slices; slice `i` spans
`[offset[i], offset[i+1])`, the last slice runs to the end of the buffer,
the slices tile the buffer from `offset[0]` on with no overlap or gap, and
the slice/request pairing preserves request order. -/
theorem C5_multi_reply_slicing {α : Type} (reqs : List α) (data : Bytes)
    (hlen : 2 + 2 * unpackUint data ≤ data.length)
    (hchain : List.Chain' (· < ·) (parsedOffsets data))
    (hreqs : reqs.length = unpackUint data)
    (hn : 0 < unpackUint data) :
    (parseMultiReply data).length = unpackUint data ∧
    (∀ i, i + 1 < unpackUint data →
      (parseMultiReply data).getD i []
        = (data.take ((parsedOffsets data).getD (i + 1) 0)).drop
            ((parsedOffsets data).getD i 0)) ∧
    (∀ hne : parsedOffsets data ≠ [],
      (parseMultiReply data).getD (unpackUint data - 1) []
        = data.drop ((parsedOffsets data).getLast hne)) ∧
    (parseMultiReply data).flatten = data.drop ((parsedOffsets data).getD 0 0) ∧
    (multiResponses reqs data).length = unpackUint data ∧
    (multiResponses reqs data).map Prod.snd = reqs := by
  have hod : ((data.drop 2).take (2 * unpackUint data)).length = 2 * unpackUint data := by
    simp only [List.length_take, List.length_drop]
    omega
  have hoffs : (parsedOffsets data).length = unpackUint data := by
    unfold parsedOffsets
    rw [List.length_map]
    exact chunks_length_mul 2 (by norm_num) (unpackUint data) _ (by rw [hod]; ring)
  have hplen : (parseMultiReply data).length = unpackUint data := by
    unfold parseMultiReply
    rw [List.length_map, slicePairs_length, hoffs]
  refine ⟨hplen, ?_, ?_, ?_, ?_, ?_⟩
  · intro i hi
    unfold parseMultiReply
    rw [getD_map_lt _ _ _ _ (0, none) (by rw [slicePairs_length, hoffs]; omega)]
    rw [slicePairs_getD_mid _ _ (by rw [hoffs]; omega)]
    rfl
  · intro hne
    unfold parseMultiReply
    rw [getD_map_lt _ _ _ _ (0, none) (by rw [slicePairs_length, hoffs]; omega)]
    rw [show unpackUint data - 1 = (parsedOffsets data).length - 1 from by rw [hoffs]]
    rw [slicePairs_getD_last _ hne]
    rfl
  · have hne : parsedOffsets data ≠ [] := by
      intro h
      rw [h] at hoffs
      simp at hoffs
      omega
    rcases hx : parsedOffsets data with _ | ⟨o, rest⟩
    · exact absurd hx hne
    · unfold parseMultiReply
      rw [hx]
      rw [slicePairs_flatten data o rest ((hx ▸ hchain).imp (fun _ _ h => le_of_lt h))]
      simp
  · unfold multiResponses
    rw [List.length_zip, hplen, hreqs]
    simp
  · unfold multiResponses
    exact List.map_snd_zip _ _ (by rw [hplen, hreqs])

/-- Witness for C5 on `sampleMultiData` (count 3, offsets `[8, 18, 24]`,
38 bytes): three slices, in request order. -/
theorem C5_witness :
    (parseMultiReply sampleMultiData).length = unpackUint sampleMultiData ∧
    (multiResponses ([10, 20, 30] : List Nat) sampleMultiData).map Prod.snd = [10, 20, 30] :=
  ⟨(C5_multi_reply_slicing ([10, 20, 30] : List Nat) sampleMultiData
      (by decide)
      (by
        rw [show parsedOffsets sampleMultiData = [8, 18, 24] from by decide]
        simp [List.chain'_cons])
      (by decide) (by decide)).1,
   (C5_multi_reply_slicing ([10, 20, 30] : List Nat) sampleMultiData
      (by decide)
      (by
        rw [show parsedOffsets sampleMultiData = [8, 18, 24] from by decide]
        simp [List.chain'_cons])
      (by decide) (by decide)).2.2.2.2.2⟩

/-- Claim C7: `set_bit` calls for the same bit override earlier ones — after
`set_bit(b, True)` then `set_bit(b, False)`, both the OR-mask and the
AND-mask have the (effective) bit `b` clear — and for the 32-bit-wide DWORD
type the bit index is reduced modulo 32, so `set_bit(35, v)` produces the
same state as `set_bit(3, v)`. -/
theorem C7_set_bit_override_and_dword_modulo :
    (∀ (s : RMWState) (b rid1 rid2 : Nat),
      Nat.testBit (set_bit (set_bit s b true rid1) b false rid2).orMask (effBit s.dataType b)
          = false ∧
      Nat.testBit (set_bit (set_bit s b true rid1) b false rid2).andMask (effBit s.dataType b)
          = false) ∧
    (∀ (s : RMWState) (v : Bool) (rid : Nat), s.dataType = "DWORD" →
      set_bit s 35 v rid = set_bit s 3 v rid) := by
  constructor
  · intro s b rid1 rid2
    constructor <;> simp [set_bit, testBit_clearBit_self]
  · intro s v rid h
    simp [set_bit, effBit, h]

/-- Witness for C7 at a concrete DWORD state: bit 5 set then cleared ends
clear in both masks, and `set_bit(35, True)` equals `set_bit(3, True)`. -/
theorem C7_witness :
    (Nat.testBit (set_bit (set_bit (initRMW "DWORD") 5 true 0) 5 false 1).orMask
        (effBit (initRMW "DWORD").dataType 5) = false ∧
     Nat.testBit (set_bit (set_bit (initRMW "DWORD") 5 true 0) 5 false 1).andMask
        (effBit (initRMW "DWORD").dataType 5) = false) ∧
    set_bit (initRMW "DWORD") 35 true 2 = set_bit (initRMW "DWORD") 3 true 2 :=
  ⟨C7_set_bit_override_and_dword_modulo.1 (initRMW "DWORD") 5 0 1,
   C7_set_bit_override_and_dword_modulo.2 (initRMW "DWORD") true 2 rfl⟩

/-- Claim C3, evaluated at the claim's own scenario (DWORD, `set_bit(0, True)`
then `set_bit(1, False)`): the mask values match the claim
(OR = 0x0000_0001, AND = 0xFFFF_FFFF_FFFF_FFFD), but the built body's
AND-mask field is `Pack.ulint(_and_mask)[:self._and_mask]` — sliced by the
mask's *value*, so all 8 bytes are emitted — not the 4-byte truncation
`0xFFFF_FFFD` the claim states.  This refutes the claim as stated on the
code. -/
theorem C3_rmw_andmask_slice_bug :
    (set_bit (set_bit (initRMW "DWORD") 0 true 10) 1 false 11).orMask = 1 ∧
    (set_bit (set_bit (initRMW "DWORD") 0 true 10) 1 false 11).andMask = 0xFFFFFFFFFFFFFFFD ∧
    rmwBody [0x4E] [0x91] (set_bit (set_bit (initRMW "DWORD") 0 true 10) 1 false 11) 4
      = [0x4E] ++ [0x91] ++ packUint 4 ++ [1, 0, 0, 0]
          ++ [0xFD, 255, 255, 255, 255, 255, 255, 255] ∧
    rmwBody [0x4E] [0x91] (set_bit (set_bit (initRMW "DWORD") 0 true 10) 1 false 11) 4
      ≠ [0x4E] ++ [0x91] ++ packUint 4 ++ [1, 0, 0, 0] ++ [0xFD, 255, 255, 255] := by
  refine ⟨by decide, by decide, by decide, by decide⟩

/- ### Fragmented write (`WriteTagFragmentedRequestPacket.send`) -/

/-- The value a fragmented write splits: either a Python `bytes` object
(opaque/struct data — the `isinstance(segment, bytes)` branch sends slices
as-is) or a sequence of atomic elements (the branch that packs each element
with `Pack[data_type]`, `w` bytes per element). -/
inductive WriteValue
  | bytes (bs : Bytes)
  | elems (es : List Int)
deriving DecidableEq, Repr

/-- Packing `Pack[data_type]` for a `w`-byte atomic type: little-endian two's
complement of the element value, `w` bytes. -/
def packAtom (w : Nat) (e : Int) : Bytes :=
  (List.range w).map (fun i => (e % ((2 : Int) ^ (8 * w))).toNat / 256 ^ i % 256)

/-- Budget `segment_size = self._driver.connection_size - (len(self.request_path) +
len(self._packed_type) + 9)` (the subtraction is exact whenever the overhead
is below the connection size, which the theorems assume). -/
def segmentSize (c : Nat) (rp pt : Bytes) : Nat := c - (rp.length + pt.length + 9)

/-- Number of items in the value being split (bytes, or atomic elements). -/
def wvalLen : WriteValue → Nat
  | .bytes bs => bs.length
  | .elems es => es.length

/-- The wire bytes of each round's `segment_bytes`: the value is sliced into
chunks of `segment_size` items; a bytes chunk is sent as-is, an element
chunk is packed element-wise and joined. -/
def fragWriteSegments (ss w : Nat) : WriteValue → List Bytes
  | .bytes bs => chunks ss bs
  | .elems es => (chunks ss es).map (fun ch => (ch.map (packAtom w)).flatten)

/-- Total wire length the claim predicts: `len(value_bytes)` for opaque
values, `element_count * type_byte_width` for atomic values. -/
def wireLen (w : Nat) : WriteValue → Nat
  | .bytes bs => bs.length
  | .elems es => es.length * w

theorem packAtom_length (w : Nat) (e : Int) : (packAtom w e).length = w := by
  simp [packAtom]

theorem flatten_map_packAtom_length (w : Nat) (ch : List Int) :
    ((ch.map (packAtom w)).flatten).length = ch.length * w := by
  induction ch with
  | nil => simp
  | cons e t ih =>
    simp [packAtom_length, ih, Nat.add_mul]
    ring

/-- Claim C1: with value length `L > 0` and the overhead below the connection
size, the per-segment budget is `connection_size - (len(request_path) +
len(packed_type) + 9)`; the value is split into consecutive, non-overlapping
segments (their concatenation is exactly the value) each of at most budget
items; the wire segment lengths sum to `L` for a bytes value and to
`element_count * w` for an atomic value; and the running offset paired with
each round's segment advances by that segment's packed byte length. -/
theorem C1_frag_write_segmentation (c w : Nat) (rp pt : Bytes) (v : WriteValue)
    (hc : rp.length + pt.length + 9 < c) (hv : 0 < wvalLen v) :
    segmentSize c rp pt + (rp.length + pt.length + 9) = c ∧
    (∀ bs, v = WriteValue.bytes bs →
      (chunks (segmentSize c rp pt) bs).flatten = bs ∧
      ∀ ch ∈ chunks (segmentSize c rp pt) bs, ch.length ≤ segmentSize c rp pt) ∧
    (∀ es, v = WriteValue.elems es →
      (chunks (segmentSize c rp pt) es).flatten = es ∧
      ∀ ch ∈ chunks (segmentSize c rp pt) es, ch.length ≤ segmentSize c rp pt) ∧
    ((fragWriteSegments (segmentSize c rp pt) w v).map List.length).sum = wireLen w v ∧
    (offsetRounds List.length 0 (fragWriteSegments (segmentSize c rp pt) w v)).map Prod.snd
      = fragWriteSegments (segmentSize c rp pt) w v ∧
    (∀ i d, i + 1 < (fragWriteSegments (segmentSize c rp pt) w v).length →
      ((offsetRounds List.length 0 (fragWriteSegments (segmentSize c rp pt) w v)).getD (i + 1)
          d).fst
        = ((offsetRounds List.length 0
              (fragWriteSegments (segmentSize c rp pt) w v)).getD i d).fst
          + ((offsetRounds List.length 0
              (fragWriteSegments (segmentSize c rp pt) w v)).getD i d).snd.length) := by
  have hss : 1 ≤ segmentSize c rp pt := by
    unfold segmentSize
    omega
  refine ⟨by unfold segmentSize; omega, ?_, ?_, ?_,
    offsetRounds_map_snd _ _ _, ?_⟩
  · intro bs hbs
    exact ⟨chunks_flatten _ hss bs, chunks_mem_length_le _ hss bs⟩
  · intro es hes
    exact ⟨chunks_flatten _ hss es, chunks_mem_length_le _ hss es⟩
  · cases v with
    | bytes bs =>
      show ((chunks (segmentSize c rp pt) bs).map List.length).sum = bs.length
      rw [← List.length_flatten, chunks_flatten _ hss bs]
    | elems es =>
      show (((chunks (segmentSize c rp pt) es).map _).map List.length).sum = es.length * w
      rw [List.map_map]
      have hmap : ((chunks (segmentSize c rp pt) es).map
          (List.length ∘ fun ch => (ch.map (packAtom w)).flatten))
          = (chunks (segmentSize c rp pt) es).map (fun ch => ch.length * w) :=
        List.map_congr_left (fun ch _ => flatten_map_packAtom_length w ch)
      rw [hmap]
      have hsum : ∀ L : List (List Int),
          (L.map (fun ch => ch.length * w)).sum = (L.map List.length).sum * w := by
        intro L
        induction L with
        | nil => simp
        | cons ch t ih => simp [ih, Nat.add_mul]
      rw [hsum, ← List.length_flatten, chunks_flatten _ hss es]
  · intro i d hi
    exact offsetRounds_getD_fst_succ List.length 0 _ i d hi

/-- Witness for C1: a 9-element DINT (w = 4) value over connection size 13
with a 1-byte path and 2-byte packed type gives budget 1, nine 4-byte wire
segments, total wire length 36 = 9 * 4. -/
theorem C1_witness :
    segmentSize 13 [0x91] [0xC4, 0x00] + ([0x91].length + [0xC4, 0x00].length + 9) = 13 ∧
    ((fragWriteSegments (segmentSize 13 [0x91] [0xC4, 0x00]) 4
        (WriteValue.elems [1, 2, 3, 4, 5, 6, 7, 8, 9])).map List.length).sum
      = wireLen 4 (WriteValue.elems [1, 2, 3, 4, 5, 6, 7, 8, 9]) :=
  ⟨(C1_frag_write_segmentation 13 4 [0x91] [0xC4, 0x00]
      (WriteValue.elems [1, 2, 3, 4, 5, 6, 7, 8, 9]) (by decide) (by decide)).1,
   (C1_frag_write_segmentation 13 4 [0x91] [0xC4, 0x00]
      (WriteValue.elems [1, 2, 3, 4, 5, 6, 7, 8, 9]) (by decide) (by decide)).2.2.2.1⟩

/-- Outcome of `WriteTagFragmentedRequestPacket.send` after the segment
loop: `ok` returns `responses[-1]`, `failure` the synthesized failed
response, and `indexError` models the uncaught `IndexError` that
`responses[-1]` raises on an empty response list. -/
inductive FragWriteOutcome
  | ok (lastValid : Bool)
  | failure
  | indexError
deriving DecidableEq, Repr

/-- The `for i, segment in enumerate(segments)` loop of
`WriteTagFragmentedRequestPacket.send` paired with one transport reply per
round (`True` = truthy/valid response, `False` = failed round; the response
truthiness itself is modelled from the spec, its class lives outside this
file's source).  The loop body has no break: every segment is sent and a
response collected regardless of earlier rounds' results.  Afterwards
`if all(responses)` returns `responses[-1]`, else a failure response;
`responses[-1]` on an empty list raises `IndexError`. -/
def fragWriteResult (segs : List Bytes) (replies : List Bool) : FragWriteOutcome :=
  let resps := (segs.zip replies).map Prod.snd
  if resps.all (fun r => r) then
    match resps.getLast? with
    | some r => .ok r
    | none => .indexError
  else .failure

/-- Counterexample to claim C6 as stated: two segments, the first round's
response a failure — the code still sends the second segment (both segments
appear in the sent pairing, length 2, not ≤ 1), even though the overall
result does collapse to a single failure. -/
theorem C6_counterexample :
    (([[1], [2]] : List Bytes).zip [false, true]).map Prod.fst = [[1], [2]] ∧
    ¬((([[1], [2]] : List Bytes).zip [false, true]).map Prod.fst).length ≤ 1 ∧
    fragWriteResult [[1], [2]] [false, true] = .failure := by
  refine ⟨by decide, by decide, by decide⟩

/-- Claim C6 amended: the loop sends every segment regardless of per-round
failures, but whenever any round's response failed the whole logical
operation yields the single synthesized failure response (no partial
success is exposed, and no retry occurs — each reply is consumed once). -/
theorem C6_failure_collapses (segs : List Bytes) (replies : List Bool)
    (hlen : replies.length = segs.length) (hfail : false ∈ replies) :
    (segs.zip replies).map Prod.fst = segs ∧
    fragWriteResult segs replies = .failure := by
  have hfst : (segs.zip replies).map Prod.fst = segs :=
    List.map_fst_zip segs replies (by omega)
  have hsnd : (segs.zip replies).map Prod.snd = replies :=
    List.map_snd_zip segs replies (by omega)
  refine ⟨hfst, ?_⟩
  unfold fragWriteResult
  rw [hsnd]
  have hnotall : replies.all (fun r => r) = false := by
    cases hca : replies.all (fun r => r) with
    | false => rfl
    | true =>
      have hfa := List.all_eq_true.mp hca false hfail
      simp at hfa
  show (if (replies.all fun r => r) = true then
      match replies.getLast? with
      | some r => FragWriteOutcome.ok r
      | none => FragWriteOutcome.indexError
    else FragWriteOutcome.failure) = FragWriteOutcome.failure
  rw [hnotall]
  simp

/-- Witness for the amended C6 at three segments with a failed middle round:
all three segments are still sent, and the result is the single failure. -/
theorem C6_witness :
    (([[5], [6], [7]] : List Bytes).zip [true, false, true]).map Prod.fst = [[5], [6], [7]] ∧
    fragWriteResult [[5], [6], [7]] [true, false, true] = .failure :=
  C6_failure_collapses [[5], [6], [7]] [true, false, true] (by decide) (by decide)

/-- Claim C8, evaluated at the failing input (empty value): slicing an empty
value yields zero segments (`range(0, 0, ss)` is empty), so no round-trip
occurs, `all([])` is truthy, and `responses[-1]` raises `IndexError` — not
the claimed single no-op segment whose response is returned. -/
theorem C8_empty_value_crash :
    chunks 100 ([] : Bytes) = [] ∧
    fragWriteSegments 100 4 (WriteValue.bytes []) = [] ∧
    fragWriteResult (fragWriteSegments 100 4 (WriteValue.bytes [])) [] = .indexError := by
  refine ⟨rfl, rfl, rfl⟩

/- ### Fragmented read loop (`ReadTagFragmentedRequestPacket.send`) -/

/-- One round's reply as the loop sees it: the parsed service status and the
payload bytes (`response.bytes_`) appended to the reassembly buffer. -/
structure FragReadRound where
  status : Nat
  payload : Bytes
deriving DecidableEq, Repr

/-- Modelled from the spec: the truthiness of a fragmented-read response
used by `all(responses)` (the base response class lives outside this file's
source): a response is valid when its general status is Success or, for
fragmented reads, "insufficient packets". -/
def respValid (r : FragReadRound) : Bool :=
  r.status == SUCCESS || r.status == INSUFFICIENT_PACKETS

/-- The `while offset is not None` loop of
`ReadTagFragmentedRequestPacket.send`, consuming one transport reply per
round: each round is recorded with the offset it was sent at; on status
`INSUFFICIENT_PACKETS` the offset advances by `len(response.bytes_)` and the
loop repeats; any other status ends the loop. -/
def fragReadLoop (o : Nat) : List FragReadRound → List (Nat × FragReadRound)
  | [] => []
  | r :: rest =>
    (o, r) ::
      (if r.status == INSUFFICIENT_PACKETS then fragReadLoop (o + r.payload.length) rest
       else [])

/-- After the loop: if every collected response is valid, the terminal
response's payload is replaced by the concatenation of every round's payload
(`b''.join(resp.bytes_ for resp in responses)`); otherwise a failure
response (`none`) is produced. -/
def fragReadResult (replies : List FragReadRound) : Option Bytes :=
  let resps := (fragReadLoop 0 replies).map Prod.snd
  if resps.all respValid then some ((resps.map FragReadRound.payload).flatten) else none

theorem fragReadLoop_all_insuff (o : Nat) (pre rest : List FragReadRound)
    (hpre : ∀ r ∈ pre, r.status = INSUFFICIENT_PACKETS) :
    fragReadLoop o (pre ++ rest)
      = offsetRounds (fun r => r.payload.length) o pre
        ++ fragReadLoop (o + ((pre.map (fun r => r.payload.length)).sum)) rest := by
  induction pre generalizing o with
  | nil => simp [offsetRounds]
  | cons r t ih =>
    have hr : r.status = INSUFFICIENT_PACKETS := hpre r (by simp)
    simp only [List.cons_append, fragReadLoop, hr, beq_self_eq_true, if_true, offsetRounds]
    rw [show t.append rest = t ++ rest from rfl]
    rw [ih _ (fun x hx => hpre x (by simp [hx]))]
    simp only [List.map_cons, List.sum_cons, List.cons_append]
    rw [show o + (r.payload.length + (t.map (fun r => r.payload.length)).sum)
        = o + r.payload.length + (t.map (fun r => r.payload.length)).sum from by ring]

theorem fragReadLoop_terminal (o : Nat) (t : FragReadRound) (rest : List FragReadRound)
    (ht : t.status ≠ INSUFFICIENT_PACKETS) :
    fragReadLoop o (t :: rest) = [(o, t)] := by
  simp [fragReadLoop, ht]

/-- Claim C2: when every round before the last has status "insufficient
packets" and the last round is valid with any other status, the loop
consumes exactly those rounds in order; the offset sent with round `i+1` is
round `i`'s offset plus round `i`'s payload length; any non-"insufficient"
status ends the loop (later transport replies are never consumed); and the
reassembled terminal payload is the concatenation, in round order, of every
round's payload bytes. -/
theorem C2_frag_read_reassembly (pre : List FragReadRound) (t : FragReadRound)
    (hpre : ∀ r ∈ pre, r.status = INSUFFICIENT_PACKETS)
    (ht : t.status ≠ INSUFFICIENT_PACKETS) (htv : respValid t = true) :
    (fragReadLoop 0 (pre ++ [t])).map Prod.snd = pre ++ [t] ∧
    fragReadLoop 0 (pre ++ [t])
      = offsetRounds (fun r => r.payload.length) 0 (pre ++ [t]) ∧
    (∀ i d, i + 1 < (pre ++ [t]).length →
      ((fragReadLoop 0 (pre ++ [t])).getD (i + 1) d).fst
        = ((fragReadLoop 0 (pre ++ [t])).getD i d).fst
          + ((fragReadLoop 0 (pre ++ [t])).getD i d).snd.payload.length) ∧
    (∀ rest, fragReadLoop 0 (pre ++ t :: rest) = fragReadLoop 0 (pre ++ [t])) ∧
    fragReadResult (pre ++ [t]) = some (((pre ++ [t]).map FragReadRound.payload).flatten) := by
  have hloop : ∀ rest, fragReadLoop 0 (pre ++ t :: rest)
      = offsetRounds (fun r => r.payload.length) 0 pre
        ++ [(((pre.map (fun r => r.payload.length)).sum), t)] := by
    intro rest
    rw [fragReadLoop_all_insuff 0 pre (t :: rest) hpre, fragReadLoop_terminal _ t rest ht]
    simp
  have hrounds : fragReadLoop 0 (pre ++ [t])
      = offsetRounds (fun r => r.payload.length) 0 (pre ++ [t]) := by
    have h1 := hloop []
    have h2 : offsetRounds (fun r => r.payload.length) 0 (pre ++ [t])
        = offsetRounds (fun r => r.payload.length) 0 pre
          ++ [(((pre.map (fun r => r.payload.length)).sum), t)] := by
      have hgen : ∀ (l : List FragReadRound) (o : Nat),
          offsetRounds (fun r => r.payload.length) o (l ++ [t])
            = offsetRounds (fun r => r.payload.length) o l
              ++ [(o + ((l.map (fun r => r.payload.length)).sum), t)] := by
        intro l
        induction l with
        | nil => intro o; simp [offsetRounds]
        | cons a tl ih =>
          intro o
          show (o, a)
              :: offsetRounds (fun r => r.payload.length) (o + a.payload.length) (tl ++ [t]) = _
          rw [ih (o + a.payload.length)]
          show (o, a) :: (offsetRounds (fun r => r.payload.length) (o + a.payload.length) tl
              ++ [(o + a.payload.length + ((tl.map (fun r => r.payload.length)).sum), t)])
            = (o, a) :: offsetRounds (fun r => r.payload.length) (o + a.payload.length) tl
              ++ [(o + (a.payload.length + ((tl.map (fun r => r.payload.length)).sum)), t)]
          rw [show o + a.payload.length + ((tl.map (fun r => r.payload.length)).sum)
              = o + (a.payload.length + ((tl.map (fun r => r.payload.length)).sum)) from by
            ring]
          rfl
      rw [hgen pre 0]
      simp
    rw [h1, h2]
  have hsnd : (fragReadLoop 0 (pre ++ [t])).map Prod.snd = pre ++ [t] := by
    rw [hrounds]
    exact offsetRounds_map_snd _ _ _
  refine ⟨hsnd, hrounds, ?_, ?_, ?_⟩
  · intro i d hi
    rw [hrounds]
    exact offsetRounds_getD_fst_succ _ 0 _ i d hi
  · intro rest
    rw [hloop rest, hloop []]
  · unfold fragReadResult
    rw [hsnd]
    have hall : (pre ++ [t]).all respValid = true := by
      rw [List.all_eq_true]
      intro r hr
      rcases List.mem_append.mp hr with h | h
      · simp [respValid, hpre r h]
      · rw [List.mem_singleton.mp h]
        exact htv
    show (if (pre ++ [t]).all respValid = true
        then some (((pre ++ [t]).map FragReadRound.payload).flatten) else none) = _
    rw [hall]
    simp

/-- Witness for C2: three "insufficient packets" rounds then a Success round
reassemble to the concatenation of the four payloads. -/
theorem C2_witness :
    fragReadResult ([⟨6, [1, 2]⟩, ⟨6, [3]⟩, ⟨6, [4, 5, 6]⟩] ++ [⟨0, [7, 8]⟩])
      = some [1, 2, 3, 4, 5, 6, 7, 8] := by
  have h := C2_frag_read_reassembly [⟨6, [1, 2]⟩, ⟨6, [3]⟩, ⟨6, [4, 5, 6]⟩] ⟨0, [7, 8]⟩
    (by decide) (by decide) (by decide)
  exact h.2.2.2.2

/- ### Write request construction (`WriteTagRequestPacket.__init__`) -/

/-- A Python value as the `isinstance(value, bytes)` check in
`WriteTagRequestPacket.__init__` sees it: raw bytes, or anything else. -/
inductive PyValue
  | bytes (bs : Bytes)
  | other
deriving DecidableEq, Repr

/-- The fields `WriteTagRequestPacket.__init__` populates when it completes
without raising. -/
structure WriteTagPacket where
  tag : String
  elements : Nat
  tagInfo : TagInfo
  value : PyValue
  request_path : Option Bytes
  packedDataType : Option Bytes
  error : Option String
deriving DecidableEq, Repr

/-- Constructor `WriteTagRequestPacket.__init__`, parameterized by the `DataType` table
(`table name = some code` iff `name in DataType`, from `pycomm3.cip`) and by
the already-resolved request path (`None` models a failed path build).
`Except.error` models a raised `RequestError`; `Except.ok` a constructed
packet (possibly with `self.error` attached, as in the missing-path case).
The struct check (`value` must be `bytes`) and the `data_type not in
DataType` check run before any message is assembled or sent. -/
def writeTagInit (table : String → Option Nat) (pathResult : Option Bytes)
    (tag : String) (elements : Nat) (ti : TagInfo) (value : PyValue) :
    Except String WriteTagPacket :=
  match pathResult with
  | none =>
    .ok { tag := tag, elements := elements, tagInfo := ti, value := value,
          request_path := none, packedDataType := none,
          error := some "Failed to create request path for tag" }
  | some rp =>
    if ti.tagType = "struct" then
      match value with
      | .bytes _ =>
        .ok { tag := tag, elements := elements, tagInfo := ti, value := value,
              request_path := some rp,
              packedDataType := some ([0xA0, 0x02] ++ packUint ti.structureHandle),
              error := none }
      | .other => .error "Writing UDTs only supports bytes for value"
    else
      match table ti.dataTypeName with
      | none => .error ("Unsupported data type: " ++ ti.dataTypeName)
      | some code =>
        .ok { tag := tag, elements := elements, tagInfo := ti, value := value,
              request_path := some rp, packedDataType := some (packUint code),
              error := none }

/-- A small concrete `DataType` table for witnesses: only `DINT` known. -/
def sampleDataTypeTable : String → Option Nat :=
  fun s => if s = "DINT" then some 0xC4 else none

/-- Counterexample to claim C9 as stated: at a concrete struct write whose
value is not bytes, and at a concrete write with an unknown atomic type
name, `__init__` raises `RequestError` (the `Except.error` branch) — no
operation object with an attached error result is produced, contrary to the
claim's "reported ... as an error result attached to the operation, not
raised". -/
theorem C9_counterexample :
    writeTagInit sampleDataTypeTable (some [0x91]) "t" 1
        { tagType := "struct", dataTypeName := "MYUDT", structureHandle := 4660 } PyValue.other
      = .error "Writing UDTs only supports bytes for value" ∧
    writeTagInit sampleDataTypeTable (some [0x91]) "t" 1
        { tagType := "atomic", dataTypeName := "BOGUS", structureHandle := 0 }
        (PyValue.bytes [1, 2, 3, 4])
      = .error ("Unsupported data type: " ++ "BOGUS") := by
  refine ⟨rfl, rfl⟩

/-- Claim C9 amended: a struct-typed value not supplied as raw bytes, and an
atomic type name outside the supported table, are each detected during
request construction — before any message is assembled or any byte sent —
and raised synchronously as a `RequestError` from `__init__` (not attached
to the operation as an error result, unlike the missing-request-path case,
and not a process abort). -/
theorem C9_build_errors_raised (table : String → Option Nat) (rp : Bytes)
    (tag : String) (elements : Nat) (ti : TagInfo) (value : PyValue) :
    (ti.tagType = "struct" → value = PyValue.other →
      writeTagInit table (some rp) tag elements ti value
        = .error "Writing UDTs only supports bytes for value") ∧
    (ti.tagType ≠ "struct" → table ti.dataTypeName = none →
      writeTagInit table (some rp) tag elements ti value
        = .error ("Unsupported data type: " ++ ti.dataTypeName)) := by
  constructor
  · intro hs hv
    subst hv
    simp [writeTagInit, hs]
  · intro hs ht
    simp [writeTagInit, hs, ht]

/-- Witness for the amended C9 at the two concrete violations. -/
theorem C9_witness :
    writeTagInit sampleDataTypeTable (some [0x91]) "u" 2
        { tagType := "struct", dataTypeName := "UDT2", structureHandle := 7 } PyValue.other
      = .error "Writing UDTs only supports bytes for value" ∧
    writeTagInit sampleDataTypeTable (some [0x91]) "u" 2
        { tagType := "atomic", dataTypeName := "NOPE", structureHandle := 0 }
        (PyValue.bytes [9])
      = .error ("Unsupported data type: " ++ "NOPE") :=
  ⟨(C9_build_errors_raised sampleDataTypeTable [0x91] "u" 2
      { tagType := "struct", dataTypeName := "UDT2", structureHandle := 7 } PyValue.other).1
      rfl rfl,
   (C9_build_errors_raised sampleDataTypeTable [0x91] "u" 2
      { tagType := "atomic", dataTypeName := "NOPE", structureHandle := 0 }
      (PyValue.bytes [9])).2 (by decide) rfl⟩

/-- Claim C10: `from_request(r, k)` returns a fragmented read request whose
`tag`, `elements`, `tag_info`, `request_id` and instance-addressing flag
equal `r`'s, whose `request_path` is `r`'s already-compiled path reused
unchanged (copied verbatim, never recompiled), and whose `offset` is `k`. -/
theorem C10_from_request_copies_fields (r : ReadTagReqBase) (k : Nat) :
    (from_request r k).tag = r.tag ∧
    (from_request r k).elements = r.elements ∧
    (from_request r k).tagInfo = r.tagInfo ∧
    (from_request r k).requestId = r.requestId ∧
    (from_request r k).useInstanceId = r.useInstanceId ∧
    (from_request r k).requestPath = r.requestPath ∧
    (from_request r k).offset = k := by
  refine ⟨rfl, rfl, rfl, rfl, rfl, rfl, rfl⟩

end Pycomm3
